import Mathlib

/-!
Verification of the transaction data-structure module of openethereum
(src/ethcore/types/src/transaction/transaction.rs) against its
natural-language specification.

The Rust module is shallowly embedded: machine integers (U256, u64, H160,
H256) become Nat resp. lists of byte values, fallible decoding returns an
explicit result type, and the panic in TypedTransaction::decode is made
visible through a dedicated result constructor.  The generic RLP
encoder/decoder and the ethkey cryptographic primitives are external
collaborators of the module (declared out of scope by the specification),
so they are modelled from the specification text; every definition below
that stands for such external code says so in its doc comment.
-/

namespace OpenEthereum

/-- Modelled from the spec: the error taxonomy reported by the external
RLP primitive and by the decoders of the transaction module (wrong item
count, expected-data / expected-list mismatches, malformed framing, and
custom messages). -/
inductive DecoderError where
  | rlpIsTooShort
  | rlpIsTooBig
  | rlpExpectedToBeList
  | rlpExpectedToBeData
  | rlpIncorrectListLen
  | rlpInvalidIndirection
  | rlpDataLenWithZeroPrefix
  | custom (msg : String)
deriving DecidableEq

/-- Result type of fallible decoding code (the Rust Result<_, DecoderError>). -/
inductive DResult (α : Type) where
  | ok (a : α)
  | err (e : DecoderError)
deriving DecidableEq

instance : Monad DResult where
  pure := .ok
  bind x f := match x with
    | .ok a => f a
    | .err e => .err e

@[simp] theorem DResult.bind_ok {α β : Type} (a : α) (f : α → DResult β) :
    (DResult.ok a) >>= f = f a := rfl

@[simp] theorem DResult.bind_err {α β : Type} (e : DecoderError) (f : α → DResult β) :
    (DResult.err e : DResult α) >>= f = .err e := rfl

@[simp] theorem DResult.pure_eq {α : Type} (a : α) : (pure a : DResult α) = .ok a := rfl

/-- Bytes of the wire format; a value below 256 stands for one byte. -/
def ValidBytes (bs : List Nat) : Prop := ∀ b ∈ bs, b < 256

instance (bs : List Nat) : Decidable (ValidBytes bs) := by
  unfold ValidBytes; infer_instance

/-- Modelled from the spec: the tree of nested byte-string and list items
produced by the external recursive-length-prefix (RLP) primitive. -/
inductive RlpItem where
  | str (payload : List Nat)
  | list (items : List RlpItem)

/-- Big-endian value of a byte sequence (most significant byte first). -/
def beNat (l : List Nat) : Nat := l.foldl (fun acc b => acc * 256 + b) 0

/-- Fuelled worker for minimal big-endian byte encoding of a number. -/
def beBytesAux : Nat → Nat → List Nat
  | 0, _ => []
  | f + 1, n => if n = 0 then [] else beBytesAux f (n / 256) ++ [n % 256]

/-- Minimal big-endian byte encoding of a number; 0 encodes as no bytes. -/
def beBytes (n : Nat) : List Nat := beBytesAux n n

theorem beBytesAux_congr : ∀ f g n : Nat, n ≤ f → n ≤ g → beBytesAux f n = beBytesAux g n := by
  intro f
  induction f with
  | zero =>
    intro g n hf _
    interval_cases n
    cases g <;> simp [beBytesAux]
  | succ f ih =>
    intro g n hf hg
    match g, n with
    | 0, n =>
      interval_cases n
      simp [beBytesAux]
    | g + 1, 0 => simp [beBytesAux]
    | g + 1, n + 1 =>
      simp only [beBytesAux, if_neg (Nat.succ_ne_zero n)]
      have hlt : (n + 1) / 256 < n + 1 := Nat.div_lt_self (Nat.succ_pos n) (by norm_num)
      rw [ih g ((n + 1) / 256) (by omega) (by omega)]

/-- Unfolding equation for beBytes. -/
theorem beBytes_def (n : Nat) :
    beBytes n = if n = 0 then [] else beBytes (n / 256) ++ [n % 256] := by
  cases n with
  | zero => simp [beBytes, beBytesAux]
  | succ m =>
    simp only [beBytes, beBytesAux, if_neg (Nat.succ_ne_zero m), Nat.succ_ne_zero, if_false]
    congr 1
    have hlt : (m + 1) / 256 < m + 1 := Nat.div_lt_self (Nat.succ_pos m) (by norm_num)
    exact beBytesAux_congr m ((m + 1) / 256) ((m + 1) / 256) (by omega) (le_refl _)

theorem beNat_append (l : List Nat) (b : Nat) : beNat (l ++ [b]) = beNat l * 256 + b := by
  simp [beNat, List.foldl_append]

theorem beNat_foldl_acc :
    ∀ (l : List Nat) (acc : Nat), List.foldl (fun a b => a * 256 + b) acc l =
      acc * 256 ^ l.length + List.foldl (fun a b => a * 256 + b) 0 l := by
  intro l
  induction l with
  | nil => intro acc; simp
  | cons b t ih =>
    intro acc
    simp only [List.foldl_cons, List.length_cons]
    rw [ih (acc * 256 + b), ih (0 * 256 + b)]
    ring

theorem beNat_cons (b : Nat) (t : List Nat) : beNat (b :: t) = b * 256 ^ t.length + beNat t := by
  simp only [beNat, List.foldl_cons]
  rw [beNat_foldl_acc]
  ring

theorem beNat_pos (l : List Nat) (hne : l ≠ []) (hz : l.head? ≠ some 0) : 0 < beNat l := by
  match l, hne with
  | a :: t, _ =>
    have ha : a ≠ 0 := by simpa using hz
    rw [beNat_cons]
    have h1 : 0 < 256 ^ t.length := Nat.pos_pow_of_pos _ (by norm_num)
    have h2 : 0 < a * 256 ^ t.length := Nat.mul_pos (Nat.pos_of_ne_zero ha) h1
    omega

/-- A canonical big-endian byte string (no leading zero, all bytes in range)
is recovered exactly by re-encoding its value. -/
theorem beBytes_beNat (s : List Nat) (hz : s.head? ≠ some 0) (hb : ∀ b ∈ s, b < 256) :
    beBytes (beNat s) = s := by
  induction s using List.reverseRecOn with
  | nil => simp [beNat, beBytes, beBytesAux]
  | append_singleton l b ih =>
    have hb256 : b < 256 := hb b (by simp)
    rw [beNat_append]
    rw [beBytes_def]
    by_cases hl : l = []
    · subst hl
      have hbne : b ≠ 0 := by simpa using hz
      simp only [beNat, List.foldl_nil, Nat.zero_mul, Nat.zero_add, if_neg hbne]
      rw [Nat.div_eq_of_lt hb256, Nat.mod_eq_of_lt hb256]
      simp [beBytes, beBytesAux]
    · have hzl : l.head? ≠ some 0 := by
        rwa [List.head?_append_of_ne_nil _ hl] at hz
      have hposl : 0 < beNat l := beNat_pos l hl hzl
      have hne : beNat l * 256 + b ≠ 0 := by positivity
      rw [if_neg hne]
      have hdiv : (beNat l * 256 + b) / 256 = beNat l := by
        rw [Nat.mul_comm (beNat l) 256, Nat.mul_add_div (by norm_num), Nat.div_eq_of_lt hb256]
        omega
      have hmod : (beNat l * 256 + b) % 256 = b := by
        rw [Nat.mul_comm (beNat l) 256, Nat.mul_add_mod]
        exact Nat.mod_eq_of_lt hb256
      rw [hdiv, hmod, ih hzl (fun x hx => hb x (by simp [hx]))]

mutual

/-- Modelled from the spec: the external RLP primitive's parser, reading one
item (byte string or nested list) off the front of a byte sequence and
reporting malformed framing; length prefixes must be canonical (minimal).
The fuel argument only drives termination. -/
def parseItem : Nat → List Nat → DResult (RlpItem × List Nat)
  | 0, _ => .err .rlpIsTooShort
  | _ + 1, [] => .err .rlpIsTooShort
  | fuel + 1, b :: rest =>
    if b < 0x80 then .ok (.str [b], rest)
    else if b < 0xb8 then
      let len := b - 0x80
      if rest.length < len then .err .rlpIsTooShort
      else
        let payload := rest.take len
        if len = 1 ∧ payload.headD 0 < 0x80 then .err .rlpInvalidIndirection
        else .ok (.str payload, rest.drop len)
    else if b < 0xc0 then
      let lol := b - 0xb7
      if rest.length < lol then .err .rlpIsTooShort
      else
        let lb := rest.take lol
        if lb.headD 1 = 0 then .err .rlpDataLenWithZeroPrefix
        else
          let len := beNat lb
          if len < 56 then .err .rlpInvalidIndirection
          else if (rest.drop lol).length < len then .err .rlpIsTooShort
          else .ok (.str ((rest.drop lol).take len), (rest.drop lol).drop len)
    else if b < 0xf8 then
      let len := b - 0xc0
      if rest.length < len then .err .rlpIsTooShort
      else
        match parseItems fuel (rest.take len) with
        | .ok items => .ok (.list items, rest.drop len)
        | .err e => .err e
    else
      let lol := b - 0xf7
      if rest.length < lol then .err .rlpIsTooShort
      else
        let lb := rest.take lol
        if lb.headD 1 = 0 then .err .rlpDataLenWithZeroPrefix
        else
          let len := beNat lb
          if len < 56 then .err .rlpInvalidIndirection
          else if (rest.drop lol).length < len then .err .rlpIsTooShort
          else
            match parseItems fuel ((rest.drop lol).take len) with
            | .ok items => .ok (.list items, (rest.drop lol).drop len)
            | .err e => .err e

/-- Modelled from the spec: parsing a maximal sequence of RLP items that
exactly exhausts a byte sequence (the payload of a list item). -/
def parseItems : Nat → List Nat → DResult (List RlpItem)
  | 0, _ => .err .rlpIsTooShort
  | _ + 1, [] => .ok []
  | fuel + 1, b :: rest =>
    match parseItem fuel (b :: rest) with
    | .err e => .err e
    | .ok (it, rest2) =>
      match parseItems fuel rest2 with
      | .err e => .err e
      | .ok items => .ok (it :: items)

end

/-- Modelled from the spec: parsing a complete byte sequence as a single
RLP item (the view the transaction decoders receive). -/
def rlpParse (bytes : List Nat) : DResult RlpItem :=
  match parseItem (2 * bytes.length + 2) bytes with
  | .ok (it, []) => .ok it
  | .ok (_, _ :: _) => .err .rlpIsTooBig
  | .err e => .err e

/-- Modelled from the spec: the RLP length header. Payloads of at most 55
bytes use a one-byte header; longer payloads use a marker byte followed by
the minimal big-endian encoding of the length. Offset 0x80 yields the
byte-string headers, offset 0xc0 the list headers. -/
def lenHeader (offset : Nat) (payload : List Nat) : List Nat :=
  if payload.length ≤ 55 then (offset + payload.length) :: payload
  else (offset + 55 + (beBytes payload.length).length) :: (beBytes payload.length ++ payload)

/-- Modelled from the spec: RLP encoding of a byte string; a single byte
below 0x80 is its own encoding. -/
def rlpEncStr (s : List Nat) : List Nat :=
  match s with
  | [b] => if b < 0x80 then [b] else lenHeader 0x80 s
  | _ => lenHeader 0x80 s

/-- Modelled from the spec: RLP encoding of an arbitrary item tree. -/
def rlpEncode : RlpItem → List Nat
  | .str s => rlpEncStr s
  | .list items => lenHeader 0xc0 ((items.attach.map fun x => rlpEncode x.1).flatten)
decreasing_by
  have := List.sizeOf_lt_of_mem x.2
  simp only [RlpItem.list.sizeOf_spec]
  omega

/-- Concatenated RLP encoding of a sequence of items (a list payload). -/
def rlpEncodeSeq (items : List RlpItem) : List Nat := (items.map rlpEncode).flatten

@[simp] theorem rlpEncode_str (s : List Nat) : rlpEncode (.str s) = rlpEncStr s := by
  rw [rlpEncode]

theorem rlpEncode_list (items : List RlpItem) :
    rlpEncode (.list items) = lenHeader 0xc0 (rlpEncodeSeq items) := by
  rw [rlpEncode, rlpEncodeSeq]
  congr 1
  simp

@[simp] theorem rlpEncodeSeq_nil : rlpEncodeSeq [] = [] := rfl

@[simp] theorem rlpEncodeSeq_cons (it : RlpItem) (items : List RlpItem) :
    rlpEncodeSeq (it :: items) = rlpEncode it ++ rlpEncodeSeq items := by
  simp [rlpEncodeSeq]

/-- All payload bytes of an item tree are in byte range. -/
inductive ItemValid : RlpItem → Prop where
  | str {s : List Nat} : (∀ b ∈ s, b < 256) → ItemValid (.str s)
  | list {items : List RlpItem} : (∀ it ∈ items, ItemValid it) → ItemValid (.list items)

/-- Embeds the Action enum (transaction.rs lines 42-50): contract creation
or a call to a 20-byte address. -/
inductive Action where
  | Create
  | Call (addr : List Nat)
deriving DecidableEq

/-- Modelled from the spec: the external RLP integer decoder used for U256
(maxLen 32) and u64 (maxLen 8) values: big-endian, minimal (no leading
zero byte), and a list item is not data. -/
def decodeNat (maxLen : Nat) : RlpItem → DResult Nat
  | .list _ => .err .rlpExpectedToBeData
  | .str s =>
    if s.head? = some 0 then .err .rlpInvalidIndirection
    else if s.length ≤ maxLen then .ok (beNat s)
    else .err .rlpIsTooBig

/-- Modelled from the spec: the external RLP decoder of fixed-width hashes
and addresses (H160 with n = 20, H256 with n = 32): the byte string must
have exactly n bytes. -/
def decodeHBytes (n : Nat) : RlpItem → DResult (List Nat)
  | .list _ => .err .rlpExpectedToBeData
  | .str s =>
    if s.length < n then .err .rlpIsTooShort
    else if s.length = n then .ok s
    else .err .rlpIsTooBig

/-- Modelled from the spec: the external RLP decoder of raw byte strings. -/
def decodeBytesItem : RlpItem → DResult (List Nat)
  | .list _ => .err .rlpExpectedToBeData
  | .str s => .ok s

/-- Modelled from the spec: Rlp::is_empty distinguishes the two RLP empty
encodings, the empty byte string and the empty list. -/
def RlpItem.is_empty : RlpItem → Bool
  | .str [] => true
  | .list [] => true
  | _ => false

/-- Modelled from the spec: Rlp::is_data holds exactly for byte strings. -/
def RlpItem.is_data : RlpItem → Bool
  | .str _ => true
  | .list _ => false

/-- Embeds impl rlp::Decodable for Action (lines 58-70): an empty data item
is Create, an empty list is an expected-to-be-data error, and anything
else is decoded as a 20-byte call address. -/
def Action.decode (rlp : RlpItem) : DResult Action :=
  if rlp.is_empty then
    if rlp.is_data then .ok .Create else .err .rlpExpectedToBeData
  else
    match decodeHBytes 20 rlp with
    | .ok addr => .ok (.Call addr)
    | .err e => .err e

/-- Embeds impl rlp::Encodable for Action (lines 72-79): Create appends the
empty byte string, Call appends the raw address bytes. -/
def Action.encPayload : Action → List Nat
  | .Create => []
  | .Call addr => addr

/-- Wire encoding of an integer field appended to an RlpStream. -/
def encNat (n : Nat) : List Nat := rlpEncStr (beBytes n)

/-- Wire encoding of a byte-string field appended to an RlpStream. -/
def encStr (s : List Nat) : List Nat := rlpEncStr s

/-- Wire encoding of an Action field appended to an RlpStream. -/
def encAction (a : Action) : List Nat := rlpEncStr a.encPayload

/-- Wire encoding of an RLP list with the given already-encoded members. -/
def encList (payloads : List (List Nat)) : List Nat := lenHeader 0xc0 payloads.flatten

/-- Embeds the Transaction struct (lines 115-129). -/
structure Transaction where
  nonce : Nat
  gas_price : Nat
  gas : Nat
  action : Action
  value : Nat
  data : List Nat
deriving DecidableEq

/-- Embeds the SignatureComponents struct (lines 476-485). -/
structure SignatureComponents where
  v : Nat
  r : Nat
  s : Nat
deriving DecidableEq

/-- Embeds SignatureComponents::rlp_append (lines 488-492): v, r, s in this
order. -/
def SignatureComponents.enc (sg : SignatureComponents) : List (List Nat) :=
  [encNat sg.v, encNat sg.r, encNat sg.s]

/-- Embeds Transaction::rlp_append_open (lines 194-206): the six open
fields followed by the [chainId, 0, 0] triple exactly when a chain id is
supplied. -/
def Transaction.openEnc (tx : Transaction) (chain_id : Option Nat) : List (List Nat) :=
  [encNat tx.nonce, encNat tx.gas_price, encNat tx.gas, encAction tx.action,
    encNat tx.value, encStr tx.data] ++
  (match chain_id with
   | some n => [encNat n, encNat 0, encNat 0]
   | none => [])

/-- Embeds Transaction::encode (lines 167-183): an RLP list of the open
fields, the optional chain-id triple, and the optional [v, r, s]. -/
def Transaction.encode (tx : Transaction) (chain_id : Option Nat)
    (sig : Option SignatureComponents) : List Nat :=
  encList (tx.openEnc chain_id ++ (match sig with | some sg => sg.enc | none => []))

/-- Embeds the AccessListTx struct (lines 215-220). -/
structure AccessListTx where
  transaction : Transaction
  access_list : List (List Nat × List (List Nat))
deriving DecidableEq

/-- Wire encoding of one access-list entry: a 2-item list of the address
and the nested storage-key list. -/
def encAccessEntry (p : List Nat × List (List Nat)) : List Nat :=
  encList [encStr p.1, encList (p.2.map encStr)]

/-- Wire encoding of the whole access-list field. -/
def encAccessList (al : List (List Nat × List (List Nat))) : List Nat :=
  encList (al.map encAccessEntry)

/-- Embeds AccessListTx::encode (lines 285-310): the 0x03 envelope byte
followed by an RLP list of the six open fields, the nested access list and
the optional [v, r, s]. -/
def AccessListTx.encode (t : AccessListTx) (sig : Option SignatureComponents) : List Nat :=
  3 :: encList (t.transaction.openEnc none ++ [encAccessList t.access_list] ++
    (match sig with | some sg => sg.enc | none => []))

/-- Embeds the TypedTransaction enum (lines 321-326). -/
inductive TypedTransaction where
  | Legacy (tx : Transaction)
  | AccessList (tx : AccessListTx)
deriving DecidableEq

/-- Embeds TypedTransaction::tx_type (lines 331-336). -/
def TypedTransaction.tx_type : TypedTransaction → Nat
  | .Legacy _ => 0x00
  | .AccessList _ => 0x03

/-- Embeds Transaction::hash (lines 133-137): keccak of the unsigned
encoding at the given chain id. The external keccak primitive is a
parameter of the model. -/
def Transaction.hash (keccak : List Nat → Nat) (tx : Transaction) (chain_id : Option Nat) : Nat :=
  keccak (tx.encode chain_id none)

/-- Embeds AccessListTx::hash (lines 316-318): keccak of the unsigned
envelope encoding. -/
def AccessListTx.hash (keccak : List Nat → Nat) (t : AccessListTx) : Nat :=
  keccak (t.encode none)

/-- Embeds TypedTransaction::hash (lines 339-344): the access-list variant
ignores the chain-id argument. -/
def TypedTransaction.hash (keccak : List Nat → Nat) : TypedTransaction → Option Nat → Nat
  | .Legacy tx, chain_id => Transaction.hash keccak tx chain_id
  | .AccessList t, _ => AccessListTx.hash keccak t

namespace signature

/-- Embeds signature::add_chain_replay_protection (lines 93-99). -/
def add_chain_replay_protection (v : Nat) (chain_id : Option Nat) : Nat :=
  v + match chain_id with
    | some n => 35 + n * 2
    | none => 27

/-- Embeds signature::check_replay_protection (lines 103-110). -/
def check_replay_protection (v : Nat) : Nat :=
  if v = 27 then 0
  else if v = 28 then 1
  else if 35 ≤ v then (v - 1) % 2
  else 4

end signature

/-- Embeds the UnverifiedTransaction struct (lines 544-553). -/
structure UnverifiedTransaction where
  unsigned : TypedTransaction
  signature : SignatureComponents
  hash : Nat
deriving DecidableEq

/-- Embeds Encodable::rlp_append for UnverifiedTransaction together with
TypedTransaction::rlp_append (lines 458-463, 575-579): the legacy variant
appends the 9-item list, the access-list variant appends its whole
envelope as one byte string. -/
def UnverifiedTransaction.rlp_bytes (t : UnverifiedTransaction) : List Nat :=
  match t.unsigned with
  | .Legacy tx => tx.encode none (some t.signature)
  | .AccessList a => encStr (a.encode (some t.signature))

/-- Embeds UnverifiedTransaction::compute_hash (lines 583-587). -/
def UnverifiedTransaction.compute_hash (keccak : List Nat → Nat)
    (t : UnverifiedTransaction) : UnverifiedTransaction :=
  { t with hash := keccak t.rlp_bytes }

/-- Embeds UnverifiedTransaction::new (lines 589-599): stores the three
arguments verbatim, including the caller-supplied hash. -/
def UnverifiedTransaction.new (transaction : TypedTransaction)
    (signature : SignatureComponents) (hash : Nat) : UnverifiedTransaction :=
  { unsigned := transaction, signature := signature, hash := hash }

/-- Embeds UnverifiedTransaction::is_unsigned (lines 601-603). -/
def UnverifiedTransaction.is_unsigned (t : UnverifiedTransaction) : Bool :=
  t.signature.r == 0 && t.signature.s == 0

/-- Embeds UnverifiedTransaction::standard_v (lines 612-614). -/
def UnverifiedTransaction.standard_v (t : UnverifiedTransaction) : Nat :=
  signature.check_replay_protection t.signature.v

/-- Embeds UnverifiedTransaction::original_v (lines 617-619). -/
def UnverifiedTransaction.original_v (t : UnverifiedTransaction) : Nat := t.signature.v

/-- Embeds UnverifiedTransaction::chain_id (lines 622-628). -/
def UnverifiedTransaction.chain_id (t : UnverifiedTransaction) : Option Nat :=
  if t.is_unsigned then some t.signature.v
  else if 35 ≤ t.signature.v then some ((t.signature.v - 35) / 2)
  else none

/-- Modelled from the spec: the secp256k1 half-curve-order bound of the
external low-s malleability check. -/
def SECP256K1N_HALF : Nat :=
  0x7fffffffffffffffffffffffffffffff5d576e7357a4501ddfe92f46681b20a0

/-- Modelled from the spec: the external ethkey low-s check, holding when
the s scalar lies in the lower half of the curve order. -/
def is_low_s (s : Nat) : Bool := decide (s ≤ SECP256K1N_HALF)

/-- Errors of the verification pipeline (ethkey invalid-signature and the
chain-id mismatch of transaction::error::Error). -/
inductive TxError where
  | invalidSignature
  | invalidChainId
deriving DecidableEq

/-- Result of a verification step (the Rust Result<(), Error>). -/
inductive VResult where
  | ok
  | err (e : TxError)
deriving DecidableEq

/-- Embeds UnverifiedTransaction::check_low_s (lines 640-646). -/
def UnverifiedTransaction.check_low_s (t : UnverifiedTransaction) : VResult :=
  if is_low_s t.signature.s then .ok else .err .invalidSignature

/-- Embeds UnverifiedTransaction::verify_basic (lines 662-679). -/
def UnverifiedTransaction.verify_basic (t : UnverifiedTransaction)
    (check_low_s : Bool) (chain_id : Option Nat) : VResult :=
  if t.is_unsigned then .err .invalidSignature
  else if check_low_s && !is_low_s t.signature.s then .err .invalidSignature
  else
    match t.chain_id, chain_id with
    | none, _ => .ok
    | some n, some m => if n = m then .ok else .err .invalidChainId
    | some _, none => .err .invalidChainId

/-- Modelled from the spec: the external ECDSA recovery primitive. The
abstract oracle recoverFn stands for the curve arithmetic at a valid
recovery id; the sentinel recovery id 4 (or any other invalid id) is a
recovery failure. -/
def ethkey_recover (recoverFn : Nat → Nat → Nat → Nat → Option Nat)
    (r s v hash : Nat) : Option Nat :=
  if v < 4 then recoverFn r s v hash else none

/-- Embeds UnverifiedTransaction::recover_public (lines 654-659): recovery
runs against the signing hash at the embedded chain id, with the
standardized recovery id. -/
def UnverifiedTransaction.recover_public (keccak : List Nat → Nat)
    (recoverFn : Nat → Nat → Nat → Nat → Option Nat)
    (t : UnverifiedTransaction) : Option Nat :=
  ethkey_recover recoverFn t.signature.r t.signature.s t.standard_v
    (t.unsigned.hash keccak t.chain_id)

/-- Embeds the SignedTransaction struct (lines 683-688); the abstract
public key is a Nat. -/
structure SignedTransaction where
  transaction : UnverifiedTransaction
  sender : List Nat
  public : Option Nat
deriving DecidableEq

/-- Result of SignedTransaction::new (the Rust Result<Self, ethkey::Error>). -/
inductive SResult where
  | ok (t : SignedTransaction)
  | err (e : TxError)
deriving DecidableEq

/-- Embeds SignedTransaction::new (lines 717-728): empty signatures are
rejected outright, recovery failures surface as invalid-signature, and on
success the sender is derived from the recovered public key, which is
stored. The external public-to-address derivation is a parameter. -/
def SignedTransaction.new (keccak : List Nat → Nat)
    (recoverFn : Nat → Nat → Nat → Nat → Option Nat)
    (public_to_address : Nat → List Nat) (t : UnverifiedTransaction) : SResult :=
  if t.is_unsigned then .err .invalidSignature
  else
    match t.recover_public keccak recoverFn with
    | none => .err .invalidSignature
    | some pub => .ok { transaction := t, sender := public_to_address pub, public := some pub }

/-- The r, s, v view of an external ethkey::Signature object. -/
structure EthSig where
  r : Nat
  s : Nat
  v : Nat
deriving DecidableEq

/-- Embeds TypedTransaction::with_signature (lines 355-366): stores r and s
as given, v through add_chain_replay_protection, then computes the cached
hash. -/
def TypedTransaction.with_signature (keccak : List Nat → Nat) (t : TypedTransaction)
    (sig : EthSig) (chain_id : Option Nat) : UnverifiedTransaction :=
  UnverifiedTransaction.compute_hash keccak
    { unsigned := t,
      signature := { v := signature.add_chain_replay_protection sig.v chain_id, r := sig.r, s := sig.s },
      hash := 0 }

/-- Embeds the UNSIGNED_SENDER constant (line 34). -/
def UNSIGNED_SENDER : List Nat := List.replicate 20 0xff

/-- Embeds TypedTransaction::fake_sign (lines 369-384): signature
(r = 1, s = 1, v = 0), the given sender, no public key. -/
def TypedTransaction.fake_sign (keccak : List Nat → Nat) (t : TypedTransaction)
    (from_addr : List Nat) : SignedTransaction :=
  { transaction := UnverifiedTransaction.compute_hash keccak
      { unsigned := t, signature := { v := 0, r := 1, s := 1 }, hash := 0 },
    sender := from_addr, public := none }

/-- Embeds TypedTransaction::null_sign (lines 390-405): signature
(r = 0, s = 0, v = chain id), the reserved unsigned sender, no public key. -/
def TypedTransaction.null_sign (keccak : List Nat → Nat) (t : TypedTransaction)
    (chain_id : Nat) : SignedTransaction :=
  { transaction := UnverifiedTransaction.compute_hash keccak
      { unsigned := t, signature := { v := chain_id, r := 0, s := 0 }, hash := 0 },
    sender := UNSIGNED_SENDER, public := none }

/-- Modelled from the spec: Rlp::at, fetching the i-th item of a list
payload. -/
def itemAt (items : List RlpItem) (i : Nat) : DResult RlpItem :=
  match items[i]? with
  | some it => .ok it
  | none => .err .rlpIsTooShort

/-- Embeds Transaction::decode_data (lines 156-165): positional decoding of
nonce, gasPrice, gas, action, value, data. -/
def Transaction.decode_data (items : List RlpItem) : DResult Transaction := do
  let i0 ← itemAt items 0
  let nonce ← decodeNat 32 i0
  let i1 ← itemAt items 1
  let gas_price ← decodeNat 32 i1
  let i2 ← itemAt items 2
  let gas ← decodeNat 32 i2
  let i3 ← itemAt items 3
  let action ← Action.decode i3
  let i4 ← itemAt items 4
  let value ← decodeNat 32 i4
  let i5 ← itemAt items 5
  let data ← decodeBytesItem i5
  .ok { nonce := nonce, gas_price := gas_price, gas := gas, action := action,
        value := value, data := data }

/-- Embeds Transaction::decode (lines 139-154): requires exactly 9 items,
hashes the raw received bytes, and reads [v, r, s] from positions 6-8. -/
def Transaction.decodeRlp (keccak : List Nat → Nat) (raw : List Nat)
    (items : List RlpItem) : DResult UnverifiedTransaction := do
  if items.length ≠ 9 then .err .rlpIncorrectListLen
  else
    let hash := keccak raw
    let i6 ← itemAt items 6
    let v ← decodeNat 8 i6
    let i7 ← itemAt items 7
    let r ← decodeNat 32 i7
    let i8 ← itemAt items 8
    let s ← decodeNat 32 i8
    let tx ← Transaction.decode_data items
    .ok (UnverifiedTransaction.new (.Legacy tx) { v := v, r := r, s := s } hash)

/-- Positional decoding of the 32-byte storage keys of one access entry. -/
def decodeStorageKeys : List RlpItem → DResult (List (List Nat))
  | [] => .ok []
  | it :: rest => do
    let k ← decodeHBytes 32 it
    let ks ← decodeStorageKeys rest
    .ok (k :: ks)

/-- Modelled from the spec: Rlp::list_at, requiring a list item and
decoding each member as a 32-byte hash. -/
def decodeH256ListItem : RlpItem → DResult (List (List Nat))
  | .str _ => .err .rlpExpectedToBeList
  | .list items => decodeStorageKeys items

/-- Embeds the per-entry body of the access-list loop in
AccessListTx::decode (lines 255-263): an entry must be a list (item_count
fails on data) of exactly 2 items, the address and the storage-key list. -/
def decodeAccessEntry : RlpItem → DResult (List Nat × List (List Nat))
  | .str _ => .err .rlpExpectedToBeList
  | .list acc =>
    if acc.length ≠ 2 then .err (.custom "Unknown access list lenght")
    else do
      let a0 ← itemAt acc 0
      let addr ← decodeHBytes 20 a0
      let a1 ← itemAt acc 1
      let keys ← decodeH256ListItem a1
      .ok (addr, keys)

/-- The access-list loop of AccessListTx::decode, in entry order. -/
def decodeAccessEntries : List RlpItem → DResult (List (List Nat × List (List Nat)))
  | [] => .ok []
  | e :: rest => do
    let p ← decodeAccessEntry e
    let ps ← decodeAccessEntries rest
    .ok (p :: ps)

/-- The access-list field decoder: the field itself must be a list. -/
def decodeAccessListItem : RlpItem → DResult (List (List Nat × List (List Nat)))
  | .str _ => .err .rlpExpectedToBeList
  | .list es => decodeAccessEntries es

/-- Embeds AccessListTx::decode (lines 239-282): strips the leading type
byte, requires a 10-item list, decodes the shared fields, the access list
and [v, r, s], and computes the identity hash by re-encoding. -/
def AccessListTx.decode (keccak : List Nat → Nat) (tx : List Nat) :
    DResult UnverifiedTransaction :=
  match rlpParse (tx.drop 1) with
  | .err e => .err e
  | .ok (.str _) => .err .rlpExpectedToBeList
  | .ok (.list items) =>
    if items.length ≠ 10 then .err .rlpIncorrectListLen
    else do
      let transaction ← Transaction.decode_data items
      let i6 ← itemAt items 6
      let accl ← decodeAccessListItem i6
      let i7 ← itemAt items 7
      let v ← decodeNat 8 i7
      let i8 ← itemAt items 8
      let r ← decodeNat 32 i8
      let i9 ← itemAt items 9
      let s ← decodeNat 32 i9
      .ok ((UnverifiedTransaction.new
        (.AccessList { transaction := transaction, access_list := accl })
        { v := v, r := r, s := s } 0).compute_hash keccak)

/-- Outcome of Rust code that may also panic: the panic constructor makes
an out-of-bounds slice access visible, as distinct from a returned
DecoderError. -/
inductive RustResult (α : Type) where
  | ok (a : α)
  | err (e : DecoderError)
  | panic
deriving DecidableEq

/-- Lifting of an ordinary fallible result into the panic-aware one. -/
def liftDR {α : Type} : DResult α → RustResult α
  | .ok a => .ok a
  | .err e => .err e

/-- Embeds TypedTransaction::decode (lines 438-456): null input is an
incorrect-length error; a list is decoded as a legacy transaction; a byte
string is dispatched on its first payload byte (0x03 to the access-list
decoder, anything else an unknown-transaction error), which is an
out-of-bounds access when the payload is empty. -/
def TypedTransaction.decode (keccak : List Nat → Nat) (bytes : List Nat) :
    RustResult UnverifiedTransaction :=
  if bytes.isEmpty then .err .rlpIncorrectListLen
  else
    match rlpParse bytes with
    | .err e => .err e
    | .ok (.list items) => liftDR (Transaction.decodeRlp keccak bytes items)
    | .ok (.str []) => .panic
    | .ok (.str (t :: rest)) =>
      if t = 3 then liftDR (AccessListTx.decode keccak (t :: rest))
      else .err (.custom "Unknown transaction")

theorem lenHeader_short (offset : Nat) (p : List Nat) (h : p.length ≤ 55) :
    lenHeader offset p = (offset + p.length) :: p := by
  simp [lenHeader, h]

theorem lenHeader_long (offset : Nat) (p : List Nat) (h : ¬ p.length ≤ 55) :
    lenHeader offset p = (offset + 55 + (beBytes p.length).length) :: (beBytes p.length ++ p) := by
  simp [lenHeader, h]

theorem rlpEncStr_single_low (b : Nat) (h : b < 0x80) : rlpEncStr [b] = [b] := by
  simp [rlpEncStr, h]

theorem rlpEncStr_canon (s : List Nat) (h55 : s.length ≤ 55)
    (hs : ∀ b, s = [b] → 0x80 ≤ b) : rlpEncStr s = (0x80 + s.length) :: s := by
  match s with
  | [] => simp [rlpEncStr, lenHeader]
  | [b] =>
    have hb := hs b rfl
    rw [rlpEncStr, if_neg (by omega)]
    simpa using lenHeader_short 0x80 [b] (by simp)
  | a :: c :: t =>
    rw [show rlpEncStr (a :: c :: t) = lenHeader 0x80 (a :: c :: t) from rfl]
    exact lenHeader_short _ _ h55

theorem rlpEncStr_long (s : List Nat) (h : ¬ s.length ≤ 55) :
    rlpEncStr s = (0x80 + 55 + (beBytes s.length).length) :: (beBytes s.length ++ s) := by
  match s with
  | [] => simp at h
  | [b] => simp at h
  | a :: c :: t =>
    rw [show rlpEncStr (a :: c :: t) = lenHeader 0x80 (a :: c :: t) from rfl]
    exact lenHeader_long _ _ h

theorem headD_ne_zero_head? (l : List Nat) (hne : l ≠ []) (h : l.headD 1 ≠ 0) :
    l.head? ≠ some 0 := by
  match l, hne with
  | a :: t, _ => simpa using h

set_option maxRecDepth 8192 in
/-- Soundness of the RLP parser against the RLP encoder: a successfully
parsed item re-encodes to exactly the bytes consumed, and its payloads
are in byte range. -/
theorem parse_sound (fuel : Nat) :
    (∀ bytes it rest, ValidBytes bytes → parseItem fuel bytes = .ok (it, rest) →
      rlpEncode it ++ rest = bytes ∧ ItemValid it ∧ ValidBytes rest)
    ∧ (∀ bytes items, ValidBytes bytes → parseItems fuel bytes = .ok items →
      rlpEncodeSeq items = bytes ∧ ∀ it ∈ items, ItemValid it) := by
  induction fuel with
  | zero =>
    constructor
    · intro bytes it rest _ h
      simp [parseItem] at h
    · intro bytes items _ h
      simp [parseItems] at h
  | succ f ih =>
    obtain ⟨ihI, ihS⟩ := ih
    constructor
    · intro bytes it rest hv h
      match bytes with
      | [] => simp [parseItem] at h
      | b :: tl =>
        have hb : b < 256 := hv b (by simp)
        have hvtl : ValidBytes tl := fun x hx => hv x (by simp [hx])
        simp only [parseItem] at h
        split_ifs at h with h1 h2 h3 h4 h5 h6 h7 h8 h9 h10 h11 h12 h13 h14 h15
        -- single byte below 0x80
        · simp only [DResult.ok.injEq, Prod.mk.injEq] at h
          obtain ⟨rfl, rfl⟩ := h
          refine ⟨?_, .str (by simpa using hb), hvtl⟩
          rw [rlpEncode_str, rlpEncStr_single_low b h1]
          rfl
        -- short byte string
        · simp only [DResult.ok.injEq, Prod.mk.injEq] at h
          obtain ⟨rfl, rfl⟩ := h
          have hlen : (tl.take (b - 0x80)).length = b - 0x80 := by
            rw [List.length_take]; omega
          have h55 : (tl.take (b - 0x80)).length ≤ 55 := by omega
          have hsingle : ∀ c, tl.take (b - 0x80) = [c] → 0x80 ≤ c := by
            intro c hc
            by_contra hlt
            exact h4 ⟨by rw [hc] at hlen; simpa using hlen.symm, by rw [hc]; simpa using by omega⟩
          refine ⟨?_, .str (fun x hx => hvtl x (List.take_subset _ _ hx)), 
            fun x hx => hvtl x (List.drop_subset _ _ hx)⟩
          rw [rlpEncode_str, rlpEncStr_canon _ h55 hsingle, hlen]
          simp only [List.cons_append, List.take_append_drop]
          congr 1
          omega
        -- long byte string
        · simp only [DResult.ok.injEq, Prod.mk.injEq] at h
          obtain ⟨rfl, rfl⟩ := h
          have hlol : 1 ≤ b - 0xb7 := by omega
          have hlbl : (tl.take (b - 0xb7)).length = b - 0xb7 := by
            rw [List.length_take]; omega
          have hlbne : tl.take (b - 0xb7) ≠ [] := by
            intro hc; rw [hc] at hlbl; simp at hlbl; omega
          have hlbhead : (tl.take (b - 0xb7)).head? ≠ some 0 :=
            headD_ne_zero_head? _ hlbne h7
          have hbb : beBytes (beNat (tl.take (b - 0xb7))) = tl.take (b - 0xb7) :=
            beBytes_beNat _ hlbhead (fun x hx => hvtl x (List.take_subset _ _ hx))
          have hpylen : ((tl.drop (b - 0xb7)).take (beNat (tl.take (b - 0xb7)))).length
              = beNat (tl.take (b - 0xb7)) := by
            rw [List.length_take]; omega
          have h55 : ¬ ((tl.drop (b - 0xb7)).take (beNat (tl.take (b - 0xb7)))).length ≤ 55 := by
            rw [hpylen]; omega
          refine ⟨?_, .str (fun x hx => hvtl x (List.drop_subset _ _ (List.take_subset _ _ hx))),
            fun x hx => hvtl x (List.drop_subset _ _ (List.drop_subset _ _ hx))⟩
          rw [rlpEncode_str, rlpEncStr_long _ h55, hpylen, hbb]
          simp only [List.cons_append, List.append_assoc, List.take_append_drop]
          rw [hlbl]
          congr 1
          omega
        -- short list
        · rcases hsub : parseItems f (tl.take (b - 0xc0)) with items | e
          · simp only [hsub] at h
            simp only [DResult.ok.injEq, Prod.mk.injEq] at h
            obtain ⟨rfl, rfl⟩ := h
            obtain ⟨hseq, hval⟩ := ihS _ items (fun x hx => hvtl x (List.take_subset _ _ hx)) hsub
            have hlen : (tl.take (b - 0xc0)).length = b - 0xc0 := by
              rw [List.length_take]; omega
            refine ⟨?_, .list hval, fun x hx => hvtl x (List.drop_subset _ _ hx)⟩
            rw [rlpEncode_list, hseq, lenHeader_short 0xc0 _ (by omega), hlen]
            simp only [List.cons_append, List.take_append_drop]
            congr 1
            omega
          · simp only [hsub] at h
            exact DResult.noConfusion h
        -- long list
        · rcases hsub : parseItems f ((tl.drop (b - 0xf7)).take (beNat (tl.take (b - 0xf7))))
            with items | e
          · simp only [hsub] at h
            simp only [DResult.ok.injEq, Prod.mk.injEq] at h
            obtain ⟨rfl, rfl⟩ := h
            obtain ⟨hseq, hval⟩ := ihS _ items
              (fun x hx => hvtl x (List.drop_subset _ _ (List.take_subset _ _ hx))) hsub
            have hlol : 1 ≤ b - 0xf7 := by omega
            have hlbl : (tl.take (b - 0xf7)).length = b - 0xf7 := by
              rw [List.length_take]; omega
            have hlbne : tl.take (b - 0xf7) ≠ [] := by
              intro hc; rw [hc] at hlbl; simp at hlbl; omega
            have hlbhead : (tl.take (b - 0xf7)).head? ≠ some 0 :=
              headD_ne_zero_head? _ hlbne h13
            have hbb : beBytes (beNat (tl.take (b - 0xf7))) = tl.take (b - 0xf7) :=
              beBytes_beNat _ hlbhead (fun x hx => hvtl x (List.take_subset _ _ hx))
            have hpylen : ((tl.drop (b - 0xf7)).take (beNat (tl.take (b - 0xf7)))).length
                = beNat (tl.take (b - 0xf7)) := by
              rw [List.length_take]; omega
            have h55 : ¬ ((tl.drop (b - 0xf7)).take (beNat (tl.take (b - 0xf7)))).length ≤ 55 := by
              rw [hpylen]; omega
            refine ⟨?_, .list hval, 
              fun x hx => hvtl x (List.drop_subset _ _ (List.drop_subset _ _ hx))⟩
            rw [rlpEncode_list, hseq, lenHeader_long 0xc0 _ h55, hpylen, hbb]
            simp only [List.cons_append, List.append_assoc, List.take_append_drop]
            rw [hlbl]
            congr 1
            omega
          · simp only [hsub] at h
            exact DResult.noConfusion h
    · intro bytes items hv h
      match bytes with
      | [] =>
        simp only [parseItems, DResult.ok.injEq] at h
        subst h
        exact ⟨rfl, by simp⟩
      | b :: tl =>
        simp only [parseItems] at h
        rcases hit : parseItem f (b :: tl) with ⟨it, rest2⟩ | e
        · simp only [hit] at h
          rcases hits : parseItems f rest2 with items2 | e
          · simp only [hits, DResult.ok.injEq] at h
            subst h
            obtain ⟨henc, hvalit, hvrest⟩ := ihI _ _ _ hv hit
            obtain ⟨hseq, hvals⟩ := ihS _ _ hvrest hits
            refine ⟨?_, ?_⟩
            · rw [rlpEncodeSeq_cons, hseq, henc]
            · intro x hx
              rcases List.mem_cons.mp hx with rfl | hx2
              · exact hvalit
              · exact hvals x hx2
          · simp only [hits] at h
            exact DResult.noConfusion h
        · simp only [hit] at h
          exact DResult.noConfusion h

theorem DResult.bind_eq_ok {α β : Type} {x : DResult α} {f : α → DResult β} {b : β} :
    (x >>= f) = .ok b ↔ ∃ a, x = .ok a ∧ f a = .ok b := by
  cases x <;> simp

theorem liftDR_eq_ok {α : Type} {x : DResult α} {a : α} :
    liftDR x = .ok a ↔ x = .ok a := by
  cases x <;> simp [liftDR]

theorem liftDR_eq_err {α : Type} {x : DResult α} {e : DecoderError} :
    liftDR x = .err e ↔ x = .err e := by
  cases x <;> simp [liftDR]

@[simp] theorem itemAt_cons_zero (x : RlpItem) (l : List RlpItem) : itemAt (x :: l) 0 = .ok x := by
  simp [itemAt]

@[simp] theorem itemAt_cons_succ (x : RlpItem) (l : List RlpItem) (n : Nat) :
    itemAt (x :: l) (n + 1) = itemAt l n := by
  simp [itemAt, List.getElem?_cons_succ]

/-- Soundness of the complete-input parse: a successful parse re-encodes to
the input bytes. -/
theorem rlpParse_sound (bytes : List Nat) (it : RlpItem) (hv : ValidBytes bytes)
    (h : rlpParse bytes = .ok it) : rlpEncode it = bytes ∧ ItemValid it := by
  unfold rlpParse at h
  rcases hp : parseItem (2 * bytes.length + 2) bytes with ⟨it2, rest⟩ | e
  · rw [hp] at h
    match rest with
    | [] =>
      simp only [DResult.ok.injEq] at h
      subst h
      obtain ⟨henc, hval, _⟩ := (parse_sound _).1 bytes _ [] hv hp
      exact ⟨by simpa using henc, hval⟩
    | x :: xs => exact DResult.noConfusion h
  · rw [hp] at h
    exact DResult.noConfusion h

/-- A successfully decoded integer field re-encodes to the integer's wire
encoding. -/
theorem decodeNat_enc (m : Nat) (it : RlpItem) (n : Nat) (hval : ItemValid it)
    (h : decodeNat m it = .ok n) : rlpEncode it = encNat n := by
  cases it with
  | list items => simp [decodeNat] at h
  | str s =>
    simp only [decodeNat] at h
    split_ifs at h with hz hlen
    simp only [DResult.ok.injEq] at h
    subst h
    cases hval with
    | str hb =>
      rw [rlpEncode_str, encNat, beBytes_beNat s hz hb]

/-- A successfully decoded fixed-width field re-encodes to its wire
encoding and has exactly the required width. -/
theorem decodeHBytes_enc (n : Nat) (it : RlpItem) (a : List Nat)
    (h : decodeHBytes n it = .ok a) : rlpEncode it = encStr a ∧ a.length = n := by
  cases it with
  | list items => simp [decodeHBytes] at h
  | str s =>
    simp only [decodeHBytes] at h
    split_ifs at h with h1 h2
    simp only [DResult.ok.injEq] at h
    subst h
    exact ⟨by rw [rlpEncode_str, encStr], h2⟩

/-- A successfully decoded byte-string field re-encodes to its wire
encoding. -/
theorem decodeBytesItem_enc (it : RlpItem) (d : List Nat)
    (h : decodeBytesItem it = .ok d) : rlpEncode it = encStr d := by
  cases it with
  | list items => simp [decodeBytesItem] at h
  | str s =>
    simp only [decodeBytesItem, DResult.ok.injEq] at h
    subst h
    rw [rlpEncode_str, encStr]

/-- A successfully decoded Action field re-encodes to its wire encoding. -/
theorem decodeAction_enc (it : RlpItem) (a : Action) (h : Action.decode it = .ok a) :
    rlpEncode it = encAction a := by
  unfold Action.decode at h
  split_ifs at h with he hd
  · have hstr : it = RlpItem.str [] := by
      cases it with
      | str s =>
        cases s with
        | nil => rfl
        | cons x xs => simp [RlpItem.is_empty] at he
      | list items => simp [RlpItem.is_data] at hd
    subst hstr
    simp only [DResult.ok.injEq] at h
    subst h
    rw [rlpEncode_str]
    rfl
  · rcases hdec : decodeHBytes 20 it with addr | e
    · rw [hdec] at h
      simp only [DResult.ok.injEq] at h
      subst h
      obtain ⟨henc, _⟩ := decodeHBytes_enc 20 it addr hdec
      rw [henc]
      rfl
    · rw [hdec] at h
      exact DResult.noConfusion h

/-- A legacy transaction decoded from a 9-item list stores keccak of the
raw bytes as its hash, and its signed wire encoding is exactly the
re-encoding of those 9 items. -/
theorem decodeRlp_rlp_bytes (keccak : List Nat → Nat) (raw : List Nat) (items : List RlpItem)
    (t : UnverifiedTransaction) (hval : ∀ it ∈ items, ItemValid it)
    (h : Transaction.decodeRlp keccak raw items = .ok t) :
    t.rlp_bytes = rlpEncode (.list items) ∧ t.hash = keccak raw := by
  unfold Transaction.decodeRlp at h
  by_cases hlen : items.length = 9
  case neg =>
    rw [if_pos (by omega)] at h
    exact DResult.noConfusion h
  case pos =>
  rw [if_neg (by omega)] at h
  rcases items with _ | ⟨i0, items⟩; · simp at hlen
  rcases items with _ | ⟨i1, items⟩; · simp at hlen
  rcases items with _ | ⟨i2, items⟩; · simp at hlen
  rcases items with _ | ⟨i3, items⟩; · simp at hlen
  rcases items with _ | ⟨i4, items⟩; · simp at hlen
  rcases items with _ | ⟨i5, items⟩; · simp at hlen
  rcases items with _ | ⟨i6, items⟩; · simp at hlen
  rcases items with _ | ⟨i7, items⟩; · simp at hlen
  rcases items with _ | ⟨i8, items⟩; · simp at hlen
  have hnil : items = [] := by
    have h0 : items.length = 0 := by
      simp only [List.length_cons] at hlen
      omega
    exact List.length_eq_zero.mp h0
  subst hnil
  simp only [itemAt_cons_succ, itemAt_cons_zero, DResult.bind_ok] at h
  rw [DResult.bind_eq_ok] at h
  obtain ⟨v, hdv, h⟩ := h
  rw [DResult.bind_eq_ok] at h
  obtain ⟨r, hdr, h⟩ := h
  rw [DResult.bind_eq_ok] at h
  obtain ⟨s, hds, h⟩ := h
  rw [DResult.bind_eq_ok] at h
  obtain ⟨tx, hdtx, h⟩ := h
  simp only [DResult.ok.injEq] at h
  subst h
  unfold Transaction.decode_data at hdtx
  simp only [itemAt_cons_succ, itemAt_cons_zero, DResult.bind_ok] at hdtx
  rw [DResult.bind_eq_ok] at hdtx
  obtain ⟨n0, hd0, hdtx⟩ := hdtx
  rw [DResult.bind_eq_ok] at hdtx
  obtain ⟨n1, hd1, hdtx⟩ := hdtx
  rw [DResult.bind_eq_ok] at hdtx
  obtain ⟨n2, hd2, hdtx⟩ := hdtx
  rw [DResult.bind_eq_ok] at hdtx
  obtain ⟨a3, hd3, hdtx⟩ := hdtx
  rw [DResult.bind_eq_ok] at hdtx
  obtain ⟨n4, hd4, hdtx⟩ := hdtx
  rw [DResult.bind_eq_ok] at hdtx
  obtain ⟨d5, hd5, hdtx⟩ := hdtx
  simp only [DResult.ok.injEq] at hdtx
  subst hdtx
  refine ⟨?_, rfl⟩
  have hv0 : ItemValid i0 := hval _ (by simp)
  have hv1 : ItemValid i1 := hval _ (by simp)
  have hv2 : ItemValid i2 := hval _ (by simp)
  have hv3 : ItemValid i3 := hval _ (by simp)
  have hv4 : ItemValid i4 := hval _ (by simp)
  have hv5 : ItemValid i5 := hval _ (by simp)
  have hv6 : ItemValid i6 := hval _ (by simp)
  have hv7 : ItemValid i7 := hval _ (by simp)
  have hv8 : ItemValid i8 := hval _ (by simp)
  rw [rlpEncode_list]
  show Transaction.encode _ none (some { v := v, r := r, s := s }) = _
  unfold Transaction.encode Transaction.openEnc SignatureComponents.enc encList
  simp only [rlpEncodeSeq_cons, rlpEncodeSeq_nil]
  rw [decodeNat_enc 32 i0 n0 hv0 hd0, decodeNat_enc 32 i1 n1 hv1 hd1,
    decodeNat_enc 32 i2 n2 hv2 hd2, decodeAction_enc i3 a3 hd3,
    decodeNat_enc 32 i4 n4 hv4 hd4, decodeBytesItem_enc i5 d5 hd5,
    decodeNat_enc 8 i6 v hv6 hdv, decodeNat_enc 32 i7 r hv7 hdr,
    decodeNat_enc 32 i8 s hv8 hds]
  simp

theorem rlp_bytes_compute_hash (keccak : List Nat → Nat) (u : UnverifiedTransaction) :
    (u.compute_hash keccak).rlp_bytes = u.rlp_bytes := rfl

/-- A transaction that went through compute_hash caches exactly the keccak
digest of its own signed wire encoding. -/
theorem compute_hash_spec (keccak : List Nat → Nat) (u : UnverifiedTransaction) :
    (u.compute_hash keccak).hash = keccak ((u.compute_hash keccak).rlp_bytes) := rfl

/-- Every successful access-list decode ends in compute_hash, so its cached
hash is the digest of its own re-encoding. -/
theorem accessDecode_hash (keccak : List Nat → Nat) (td : List Nat) (t : UnverifiedTransaction)
    (h : AccessListTx.decode keccak td = .ok t) : t.hash = keccak t.rlp_bytes := by
  unfold AccessListTx.decode at h
  rcases hp : rlpParse (td.drop 1) with it | e
  · match it with
    | .str s =>
      simp only [hp] at h
      exact DResult.noConfusion h
    | .list items =>
      simp only [hp] at h
      by_cases hlen : items.length = 10
      case neg =>
        rw [if_pos (by omega)] at h
        exact DResult.noConfusion h
      case pos =>
      rw [if_neg (by omega)] at h
      rw [DResult.bind_eq_ok] at h
      obtain ⟨tx, _, h⟩ := h
      rw [DResult.bind_eq_ok] at h
      obtain ⟨i6, _, h⟩ := h
      rw [DResult.bind_eq_ok] at h
      obtain ⟨accl, _, h⟩ := h
      rw [DResult.bind_eq_ok] at h
      obtain ⟨i7, _, h⟩ := h
      rw [DResult.bind_eq_ok] at h
      obtain ⟨v, _, h⟩ := h
      rw [DResult.bind_eq_ok] at h
      obtain ⟨i8, _, h⟩ := h
      rw [DResult.bind_eq_ok] at h
      obtain ⟨r, _, h⟩ := h
      rw [DResult.bind_eq_ok] at h
      obtain ⟨i9, _, h⟩ := h
      rw [DResult.bind_eq_ok] at h
      obtain ⟨s, _, h⟩ := h
      simp only [DResult.ok.injEq] at h
      subst h
      exact compute_hash_spec keccak _
  · rw [hp] at h
    exact DResult.noConfusion h

/-- Every transaction successfully returned by TypedTransaction::decode
caches keccak of its own signed wire encoding. -/
theorem decode_hash_ok (keccak : List Nat → Nat) (bytes : List Nat)
    (t : UnverifiedTransaction) (hv : ValidBytes bytes)
    (h : TypedTransaction.decode keccak bytes = .ok t) : t.hash = keccak t.rlp_bytes := by
  unfold TypedTransaction.decode at h
  by_cases hemp : bytes.isEmpty
  · rw [if_pos hemp] at h
    exact RustResult.noConfusion h
  rw [if_neg hemp] at h
  rcases hp : rlpParse bytes with it | e
  · match it with
    | .list items =>
      simp only [hp] at h
      rw [liftDR_eq_ok] at h
      have hval : ∀ x ∈ items, ItemValid x := by
        obtain ⟨_, hvi⟩ := rlpParse_sound bytes _ hv hp
        cases hvi with
        | list hmem => exact hmem
      obtain ⟨hrb, hh⟩ := decodeRlp_rlp_bytes keccak bytes items t hval h
      obtain ⟨henc, _⟩ := rlpParse_sound bytes _ hv hp
      rw [hh, hrb, henc]
    | .str [] =>
      simp only [hp] at h
      exact RustResult.noConfusion h
    | .str (c :: rest) =>
      simp only [hp] at h
      by_cases hc : c = 3
      · rw [if_pos hc] at h
        rw [liftDR_eq_ok] at h
        exact accessDecode_hash keccak _ t h
      · rw [if_neg hc] at h
        exact RustResult.noConfusion h
  · rw [hp] at h
    exact RustResult.noConfusion h

/-! Shared concrete inputs for witnesses and counterexamples. -/

/-- A hash oracle that never returns 0. -/
def wKone : List Nat → Nat := fun _ => 1

/-- A concrete hash oracle for witnesses. -/
def wK : List Nat → Nat := fun _ => 7

/-- A minimal concrete transaction body. -/
def wTx : Transaction :=
  { nonce := 0, gas_price := 0, gas := 0, action := .Create, value := 0, data := [] }

/-- A concrete nonempty signature. -/
def wSig : SignatureComponents := { v := 27, r := 1, s := 1 }

/-- The wire bytes of the legacy transaction (wTx, wSig). -/
def wBytesLegacy : List Nat := [0xc9, 0x80, 0x80, 0x80, 0x80, 0x80, 0x80, 0x1b, 0x01, 0x01]

/-- The unverified transaction decoded from wBytesLegacy under wK. -/
def wT : UnverifiedTransaction := { unsigned := .Legacy wTx, signature := wSig, hash := 7 }

/-- C1 (amended). For every UnverifiedTransaction produced by decode,
with_signature, fake_sign or null_sign, the cached hash field equals the
keccak digest of the transaction's complete signature-included wire
encoding (the bytes its Encodable::rlp_append produces), set at
construction; UnverifiedTransaction::new instead stores its hash argument
verbatim, so the invariant holds for it exactly when the caller passes
that digest, as both internal call sites do. -/
theorem C1_hash_invariant :
    (∀ (keccak : List Nat → Nat) (bytes : List Nat) (t : UnverifiedTransaction),
      ValidBytes bytes → TypedTransaction.decode keccak bytes = .ok t →
      t.hash = keccak t.rlp_bytes)
    ∧ (∀ (keccak : List Nat → Nat) (ty : TypedTransaction) (sig : EthSig) (cid : Option Nat),
      (ty.with_signature keccak sig cid).hash = keccak (ty.with_signature keccak sig cid).rlp_bytes)
    ∧ (∀ (keccak : List Nat → Nat) (ty : TypedTransaction) (addr : List Nat),
      (ty.fake_sign keccak addr).transaction.hash
        = keccak (ty.fake_sign keccak addr).transaction.rlp_bytes)
    ∧ (∀ (keccak : List Nat → Nat) (ty : TypedTransaction) (cid : Nat),
      (ty.null_sign keccak cid).transaction.hash
        = keccak (ty.null_sign keccak cid).transaction.rlp_bytes) :=
  ⟨fun keccak bytes t hv h => decode_hash_ok keccak bytes t hv h,
   fun keccak _ _ _ => compute_hash_spec keccak _,
   fun keccak _ _ => compute_hash_spec keccak _,
   fun keccak _ _ => compute_hash_spec keccak _⟩

/-- C1 counterexample: the claim ranges over UnverifiedTransaction::new,
but new stores the caller-supplied hash verbatim, so constructing with
hash 0 under a digest function that never returns 0 yields a cached hash
different from the digest of the signed wire encoding. -/
theorem C1_counterexample :
    (UnverifiedTransaction.new (.Legacy wTx) wSig 0).hash
      ≠ wKone ((UnverifiedTransaction.new (.Legacy wTx) wSig 0).rlp_bytes) := by
  decide

/-- C1 witness: decoding a concrete legacy wire transaction yields a cached
hash equal to the digest of its signed encoding. -/
theorem C1_witness :
    ValidBytes wBytesLegacy ∧ TypedTransaction.decode wK wBytesLegacy = .ok wT ∧
      wT.hash = wK wT.rlp_bytes :=
  ⟨by decide, by rfl, C1_hash_invariant.1 wK wBytesLegacy wT (by decide) (by rfl)⟩

/-- Evaluation of chain_id for a transaction with a nonempty signature. -/
theorem chain_id_eval (t : UnverifiedTransaction) (hne : t.is_unsigned = false) :
    t.chain_id = if 35 ≤ t.signature.v then some ((t.signature.v - 35) / 2) else none := by
  unfold UnverifiedTransaction.chain_id
  rw [hne]
  simp

/-- C6. check_replay_protection returns 0 at v = 27, 1 at v = 28,
(v - 1) % 2 for v ≥ 35 (so 0 at 35 and 1 at 36), and the sentinel 4 for
every other v, in particular every v < 27 and every v in 29..34. -/
theorem C6_check_replay_protection :
    ∀ v : Nat,
      (v = 27 → signature.check_replay_protection v = 0)
      ∧ (v = 28 → signature.check_replay_protection v = 1)
      ∧ (35 ≤ v → signature.check_replay_protection v = (v - 1) % 2)
      ∧ signature.check_replay_protection 35 = 0
      ∧ signature.check_replay_protection 36 = 1
      ∧ (v < 27 → signature.check_replay_protection v = 4)
      ∧ (29 ≤ v → v ≤ 34 → signature.check_replay_protection v = 4) := by
  intro v
  refine ⟨?_, ?_, ?_, by decide, by decide, ?_, ?_⟩
  · rintro rfl; decide
  · rintro rfl; decide
  · intro h
    unfold signature.check_replay_protection
    rw [if_neg (by omega), if_neg (by omega), if_pos h]
  · intro h
    unfold signature.check_replay_protection
    rw [if_neg (by omega), if_neg (by omega), if_neg (by omega)]
  · intro h1 h2
    unfold signature.check_replay_protection
    rw [if_neg (by omega), if_neg (by omega), if_neg (by omega)]

/-- C6 witness: concrete evaluations at 27, 29 and 37. -/
theorem C6_witness :
    signature.check_replay_protection 27 = 0
    ∧ signature.check_replay_protection 29 = 4
    ∧ signature.check_replay_protection 37 = (37 - 1) % 2 :=
  ⟨(C6_check_replay_protection 27).1 rfl,
   (C6_check_replay_protection 29).2.2.2.2.2.2 (by decide) (by decide),
   (C6_check_replay_protection 37).2.2.1 (by decide)⟩

/-- C5 counterexample: with_signature with the empty signature object
(r = 0, s = 0, recovery id 0) and chain id 0 produces a transaction whose
chain_id() is 35, not 0, because the empty-signature branch of chain_id
reads the stored v field directly. -/
theorem C5_counterexample :
    ((TypedTransaction.Legacy wTx).with_signature wKone { r := 0, s := 0, v := 0 }
        (some 0)).chain_id ≠ some 0
    ∧ ((TypedTransaction.Legacy wTx).with_signature wKone { r := 0, s := 0, v := 0 }
        (some 0)).chain_id = some 35 :=
  ⟨by decide, by decide⟩

/-- C5 (amended). For every typed transaction, every signature whose
recovery id is 0 or 1 and which is not empty (not both r = 0 and s = 0),
and every chainId, with_signature followed by chain_id() returns exactly
that chainId, via v = recoveryId + 35 + chainId·2 when a chain id is
present and v = recoveryId + 27 otherwise; an empty signature instead
makes chain_id() return the stored v itself. -/
theorem C5_with_signature_chain_id :
    ∀ (keccak : List Nat → Nat) (ty : TypedTransaction) (sig : EthSig) (cid : Option Nat),
      ((ty.with_signature keccak sig cid).signature.v
          = signature.add_chain_replay_protection sig.v cid)
      ∧ (∀ v c, signature.add_chain_replay_protection v (some c) = v + 35 + c * 2)
      ∧ (∀ v, signature.add_chain_replay_protection v none = v + 27)
      ∧ ((sig.v = 0 ∨ sig.v = 1) → ¬(sig.r = 0 ∧ sig.s = 0) →
          (ty.with_signature keccak sig cid).chain_id = cid) := by
  intro keccak ty sig cid
  refine ⟨rfl, fun v c => by simp only [signature.add_chain_replay_protection]; omega,
    fun v => rfl, ?_⟩
  intro hrec hne
  have hiu : (ty.with_signature keccak sig cid).is_unsigned = false := by
    by_cases h1 : sig.r = 0 <;> by_cases h2 : sig.s = 0
    · exact absurd ⟨h1, h2⟩ hne
    all_goals
      simp [TypedTransaction.with_signature, UnverifiedTransaction.compute_hash,
        UnverifiedTransaction.is_unsigned, h1, h2]
  rw [chain_id_eval _ hiu]
  rw [show (ty.with_signature keccak sig cid).signature.v
      = signature.add_chain_replay_protection sig.v cid from rfl]
  rcases cid with _ | n
  · rw [if_neg]
    simp only [signature.add_chain_replay_protection]
    omega
  · rw [if_pos]
    · simp only [signature.add_chain_replay_protection, Option.some.injEq]
      omega
    · simp only [signature.add_chain_replay_protection]
      omega

/-- C5 witness: a real signature with recovery id 1 and chain id 69
round-trips the chain id. -/
theorem C5_witness :
    (((TypedTransaction.Legacy wTx).with_signature wK { r := 1, s := 1, v := 1 }
        (some 69)).chain_id = some 69) :=
  (C5_with_signature_chain_id wK (.Legacy wTx) { r := 1, s := 1, v := 1 } (some 69)).2.2.2
    (Or.inr rfl) (by decide)

/-- C4. verify_basic rejects empty signatures; with checkLowS set it
rejects a high s; otherwise it accepts when the embedded chain id is
absent, accepts when both chain ids are present and equal, and reports a
chain-id mismatch when both are present and unequal. The definition takes
no recovery oracle, so acceptance never attempts sender recovery. -/
theorem C4_verify_basic :
    ∀ (t : UnverifiedTransaction) (cls : Bool) (cid : Option Nat),
      (t.is_unsigned = true → t.verify_basic cls cid = .err .invalidSignature)
      ∧ (t.is_unsigned = false → cls = true → is_low_s t.signature.s = false →
          t.verify_basic cls cid = .err .invalidSignature)
      ∧ (t.is_unsigned = false → (cls = true → is_low_s t.signature.s = true) →
          t.chain_id = none → t.verify_basic cls cid = .ok)
      ∧ (∀ n, t.is_unsigned = false → (cls = true → is_low_s t.signature.s = true) →
          t.chain_id = some n → cid = some n → t.verify_basic cls cid = .ok)
      ∧ (∀ n m, t.is_unsigned = false → (cls = true → is_low_s t.signature.s = true) →
          t.chain_id = some n → cid = some m → n ≠ m →
          t.verify_basic cls cid = .err .invalidChainId) := by
  intro t cls cid
  refine ⟨?_, ?_, ?_, ?_, ?_⟩
  · intro h1
    unfold UnverifiedTransaction.verify_basic
    rw [h1]
    simp
  · intro h1 h2 h3
    unfold UnverifiedTransaction.verify_basic
    rw [h1, h2, h3]
    simp
  · intro h1 hls hcid
    have hc : (cls && !is_low_s t.signature.s) = false := by
      cases cls with
      | false => simp
      | true => simp [hls rfl]
    unfold UnverifiedTransaction.verify_basic
    rw [h1, hc, hcid]
    simp
  · intro n h1 hls hcid hexp
    have hc : (cls && !is_low_s t.signature.s) = false := by
      cases cls with
      | false => simp
      | true => simp [hls rfl]
    unfold UnverifiedTransaction.verify_basic
    rw [h1, hc, hcid, hexp]
    simp
  · intro n m h1 hls hcid hexp hne
    have hc : (cls && !is_low_s t.signature.s) = false := by
      cases cls with
      | false => simp
      | true => simp [hls rfl]
    unfold UnverifiedTransaction.verify_basic
    rw [h1, hc, hcid, hexp]
    simp [hne]

/-- An unverified transaction with the empty signature and v = 1. -/
def wTnull : UnverifiedTransaction :=
  { unsigned := .Legacy wTx, signature := { v := 1, r := 0, s := 0 }, hash := 0 }

/-- An unverified transaction with v = 37, i.e. embedded chain id 1. -/
def wT37 : UnverifiedTransaction :=
  { unsigned := .Legacy wTx, signature := { v := 37, r := 1, s := 1 }, hash := 0 }

/-- C4 witness: concrete accept and reject outcomes of verify_basic. -/
theorem C4_witness :
    wT.verify_basic true (some 5) = .ok
    ∧ wTnull.verify_basic false none = .err .invalidSignature
    ∧ wT37.verify_basic false (some 2) = .err .invalidChainId :=
  ⟨(C4_verify_basic wT true (some 5)).2.2.1 (by decide) (fun _ => by decide) (by decide),
   (C4_verify_basic wTnull false none).1 (by decide),
   (C4_verify_basic wT37 false (some 2)).2.2.2.2 1 2 (by decide) (fun h => by cases h)
     (by decide) rfl (by decide)⟩

/-- C3. SignedTransaction::new rejects an empty signature (so it always
fails on a null_sign-produced transaction); otherwise it runs public-key
recovery against the signing hash at the standardized recovery id, where
the sentinel recovery id 4 or a recovery failure surface as an
invalid-signature error; on success the sender is the address derived
from the recovered public key, and the public key is stored. -/
theorem C3_signed_new :
    ∀ (keccak : List Nat → Nat) (recoverFn : Nat → Nat → Nat → Nat → Option Nat)
      (p2a : Nat → List Nat) (t : UnverifiedTransaction),
      (t.is_unsigned = true →
        SignedTransaction.new keccak recoverFn p2a t = .err .invalidSignature)
      ∧ (∀ (ty : TypedTransaction) (cid : Nat),
          SignedTransaction.new keccak recoverFn p2a (ty.null_sign keccak cid).transaction
            = .err .invalidSignature)
      ∧ (t.is_unsigned = false → t.standard_v = 4 →
          SignedTransaction.new keccak recoverFn p2a t = .err .invalidSignature)
      ∧ (t.is_unsigned = false →
          recoverFn t.signature.r t.signature.s t.standard_v
            (t.unsigned.hash keccak t.chain_id) = none →
          SignedTransaction.new keccak recoverFn p2a t = .err .invalidSignature)
      ∧ (∀ pub, t.is_unsigned = false → t.standard_v < 4 →
          recoverFn t.signature.r t.signature.s t.standard_v
            (t.unsigned.hash keccak t.chain_id) = some pub →
          SignedTransaction.new keccak recoverFn p2a t
            = .ok { transaction := t, sender := p2a pub, public := some pub }) := by
  intro keccak recoverFn p2a t
  refine ⟨?_, ?_, ?_, ?_, ?_⟩
  · intro h1
    unfold SignedTransaction.new
    rw [h1]
    simp
  · intro ty cid
    unfold SignedTransaction.new
    rw [show ((ty.null_sign keccak cid).transaction.is_unsigned) = true from rfl]
    simp
  · intro h1 h4
    unfold SignedTransaction.new UnverifiedTransaction.recover_public ethkey_recover
    rw [h1, h4]
    simp
  · intro h1 hrec
    unfold SignedTransaction.new UnverifiedTransaction.recover_public ethkey_recover
    rw [h1]
    by_cases hlt : t.standard_v < 4
    · rw [if_pos hlt, hrec]
      simp
    · rw [if_neg hlt]
      simp
  · intro pub h1 hlt hrec
    unfold SignedTransaction.new UnverifiedTransaction.recover_public ethkey_recover
    rw [h1, if_pos hlt, hrec]
    simp

/-- A concrete recovery oracle for witnesses. -/
def wRecover : Nat → Nat → Nat → Nat → Option Nat := fun _ _ _ _ => some 42

/-- A concrete public-key-to-address derivation for witnesses. -/
def wP2a : Nat → List Nat := fun p => [p]

/-- C3 witness: concrete recovery success on wT and rejection of a
null-signed transaction. -/
theorem C3_witness :
    SignedTransaction.new wK wRecover wP2a wT
      = .ok { transaction := wT, sender := [42], public := some 42 }
    ∧ SignedTransaction.new wK wRecover wP2a
        ((TypedTransaction.Legacy wTx).null_sign wK 1).transaction = .err .invalidSignature :=
  ⟨(C3_signed_new wK wRecover wP2a wT).2.2.2.2 42 (by decide) (by decide) rfl,
   (C3_signed_new wK wRecover wP2a wT).2.1 (.Legacy wTx) 1⟩

/-- C7. The signing hash of a legacy transaction is keccak of the 6-field
list, extended with [chainId, 0, 0] exactly when a chain id is supplied
and with no v/r/s appended; the signing hash of an access-list transaction
is keccak of the 0x03-prefixed 7-field encoding with no chain-id triple
and no v/r/s, independent of the chain-id argument. -/
theorem C7_signing_hash :
    ∀ (keccak : List Nat → Nat) (tx : Transaction) (a : AccessListTx)
      (cid cid2 : Option Nat) (n : Nat),
      TypedTransaction.hash keccak (.Legacy tx) none
        = keccak (encList [encNat tx.nonce, encNat tx.gas_price, encNat tx.gas,
            encAction tx.action, encNat tx.value, encStr tx.data])
      ∧ TypedTransaction.hash keccak (.Legacy tx) (some n)
        = keccak (encList ([encNat tx.nonce, encNat tx.gas_price, encNat tx.gas,
            encAction tx.action, encNat tx.value, encStr tx.data]
            ++ [encNat n, encNat 0, encNat 0]))
      ∧ TypedTransaction.hash keccak (.AccessList a) cid
        = keccak (3 :: encList ([encNat a.transaction.nonce, encNat a.transaction.gas_price,
            encNat a.transaction.gas, encAction a.transaction.action,
            encNat a.transaction.value, encStr a.transaction.data]
            ++ [encAccessList a.access_list]))
      ∧ TypedTransaction.hash keccak (.AccessList a) cid
        = TypedTransaction.hash keccak (.AccessList a) cid2 := by
  intro keccak tx a cid cid2 n
  refine ⟨rfl, ?_, rfl, rfl⟩
  simp [TypedTransaction.hash, Transaction.hash, Transaction.encode, Transaction.openEnc]

/-- C8. The Action codec encodes Create as the empty byte string and Call
as the raw 20-byte address; decoding an empty byte string yields Create, a
nonzero-length byte string yields Call subject to the 20-byte length
validation of the address type, and a list item (even the empty list) is
rejected with an expected-data error. -/
theorem C8_action_codec :
    ∀ (a : List Nat) (s : List Nat) (items : List RlpItem),
      Action.encPayload .Create = []
      ∧ Action.encPayload (.Call a) = a
      ∧ encAction .Create = rlpEncStr []
      ∧ encAction (.Call a) = rlpEncStr a
      ∧ Action.decode (.str []) = .ok .Create
      ∧ (s.length = 20 → Action.decode (.str s) = .ok (.Call s))
      ∧ (s ≠ [] → s.length < 20 → Action.decode (.str s) = .err .rlpIsTooShort)
      ∧ (20 < s.length → Action.decode (.str s) = .err .rlpIsTooBig)
      ∧ Action.decode (.list items) = .err .rlpExpectedToBeData := by
  intro a s items
  refine ⟨rfl, rfl, rfl, rfl, rfl, ?_, ?_, ?_, ?_⟩
  · intro h20
    rcases s with _ | ⟨x, xs⟩
    · simp at h20
    · have hd : decodeHBytes 20 (RlpItem.str (x :: xs)) = .ok (x :: xs) := by
        simp only [decodeHBytes]
        rw [if_neg (by omega), if_pos h20]
      unfold Action.decode
      rw [if_neg (by simp [RlpItem.is_empty]), hd]
  · intro hne hlt
    rcases s with _ | ⟨x, xs⟩
    · simp at hne
    · have hd : decodeHBytes 20 (RlpItem.str (x :: xs)) = .err .rlpIsTooShort := by
        simp only [decodeHBytes]
        rw [if_pos hlt]
      unfold Action.decode
      rw [if_neg (by simp [RlpItem.is_empty]), hd]
  · intro hgt
    rcases s with _ | ⟨x, xs⟩
    · simp at hgt
    · have hd : decodeHBytes 20 (RlpItem.str (x :: xs)) = .err .rlpIsTooBig := by
        simp only [decodeHBytes]
        rw [if_neg (by omega), if_neg (by omega)]
      unfold Action.decode
      rw [if_neg (by simp [RlpItem.is_empty]), hd]
  · rcases items with _ | ⟨x, xs⟩
    · rfl
    · rfl

/-- C8 witness: decoding a concrete 20-byte address and a concrete
too-short byte string. -/
theorem C8_witness :
    Action.decode (.str (List.replicate 20 5)) = .ok (.Call (List.replicate 20 5))
    ∧ Action.decode (.str [1]) = .err .rlpIsTooShort :=
  ⟨(C8_action_codec [] (List.replicate 20 5) []).2.2.2.2.2.1 (by decide),
   (C8_action_codec [] [1] []).2.2.2.2.2.2.1 (by decide) (by decide)⟩

theorem rlpParse_nil : rlpParse [] = .err .rlpIsTooShort := rfl

/-- C2. TypedTransaction::decode treats null input as an incorrect-length
error; a well-formed RLP list is decoded as a legacy transaction, where
any item count other than 9 is an incorrect-length error; a byte string is
dispatched on its first payload byte, tag 0x03 going to the access-list
decoder and any other tag to an unknown-transaction error. -/
theorem C2_decode_dispatch :
    ∀ (keccak : List Nat → Nat) (bytes : List Nat),
      (bytes = [] → TypedTransaction.decode keccak bytes = .err .rlpIncorrectListLen)
      ∧ (∀ items, rlpParse bytes = .ok (.list items) →
          TypedTransaction.decode keccak bytes
            = liftDR (Transaction.decodeRlp keccak bytes items)
          ∧ (items.length ≠ 9 →
              TypedTransaction.decode keccak bytes = .err .rlpIncorrectListLen))
      ∧ (∀ c p, rlpParse bytes = .ok (.str (c :: p)) →
          (c = 3 → TypedTransaction.decode keccak bytes
              = liftDR (AccessListTx.decode keccak (c :: p)))
          ∧ (c ≠ 3 → TypedTransaction.decode keccak bytes
              = .err (.custom "Unknown transaction"))) := by
  intro keccak bytes
  refine ⟨?_, ?_, ?_⟩
  · rintro rfl
    rfl
  · intro items hp
    have hne : bytes ≠ [] := by
      rintro rfl
      rw [rlpParse_nil] at hp
      exact DResult.noConfusion hp
    have hmain : TypedTransaction.decode keccak bytes
        = liftDR (Transaction.decodeRlp keccak bytes items) := by
      unfold TypedTransaction.decode
      rw [if_neg (by simpa [List.isEmpty_iff] using hne)]
      simp only [hp]
    refine ⟨hmain, ?_⟩
    intro h9
    rw [hmain]
    unfold Transaction.decodeRlp
    rw [if_pos h9]
    rfl
  · intro c p hp
    have hne : bytes ≠ [] := by
      rintro rfl
      rw [rlpParse_nil] at hp
      exact DResult.noConfusion hp
    have hmain : TypedTransaction.decode keccak bytes
        = if c = 3 then liftDR (AccessListTx.decode keccak (c :: p))
          else .err (.custom "Unknown transaction") := by
      unfold TypedTransaction.decode
      rw [if_neg (by simpa [List.isEmpty_iff] using hne)]
      simp only [hp]
    constructor
    · intro h3
      rw [hmain, if_pos h3]
    · intro h3
      rw [hmain, if_neg h3]

/-- The parsed items of the witness legacy transaction bytes. -/
def wItems : List RlpItem :=
  [.str [], .str [], .str [], .str [], .str [], .str [], .str [0x1b], .str [1], .str [1]]

/-- C2 witness: concrete dispatch outcomes of decode for null input, a
9-item legacy list and an unknown type tag. -/
theorem C2_witness :
    TypedTransaction.decode wK [] = .err .rlpIncorrectListLen
    ∧ rlpParse wBytesLegacy = .ok (.list wItems)
    ∧ TypedTransaction.decode wK wBytesLegacy
        = liftDR (Transaction.decodeRlp wK wBytesLegacy wItems)
    ∧ TypedTransaction.decode wK [0x05] = .err (.custom "Unknown transaction") :=
  ⟨(C2_decode_dispatch wK []).1 rfl, rfl,
   ((C2_decode_dispatch wK wBytesLegacy).2.1 wItems rfl).1,
   ((C2_decode_dispatch wK [0x05]).2.2 5 [] rfl).2 (by decide)⟩

/-- Every successfully decoded access-list entry is a 2-item list. -/
theorem decodeAccessEntries_shape :
    ∀ (es : List RlpItem) (ps : List (List Nat × List (List Nat))),
      decodeAccessEntries es = .ok ps →
      ∀ e ∈ es, ∃ l, e = RlpItem.list l ∧ l.length = 2 := by
  intro es
  induction es with
  | nil =>
    intro ps _ e he
    simp at he
  | cons x rest ih =>
    intro ps h e he
    simp only [decodeAccessEntries] at h
    rw [DResult.bind_eq_ok] at h
    obtain ⟨p, hp, h⟩ := h
    rw [DResult.bind_eq_ok] at h
    obtain ⟨ps2, hps2, _⟩ := h
    rcases List.mem_cons.mp he with rfl | he2
    · cases e with
      | str s => exact absurd hp (by simp [decodeAccessEntry])
      | list l =>
        refine ⟨l, rfl, ?_⟩
        simp only [decodeAccessEntry] at hp
        by_cases h2 : l.length = 2
        · exact h2
        · rw [if_pos h2] at hp
          exact DResult.noConfusion hp
    · exact ih ps2 hps2 e he2

/-- C9 counterexample: with the one-byte remainder 0x01 after the type
byte, the access-list decoder reports expected-to-be-list, not the
incorrect-list-length error the claim names for every non-10-item case. -/
theorem C9_counterexample :
    AccessListTx.decode wK [3, 1] = .err .rlpExpectedToBeList
    ∧ AccessListTx.decode wK [3, 1] ≠ .err .rlpIncorrectListLen :=
  ⟨rfl, by decide⟩

/-- C9 (amended). After stripping the leading type byte, the access-list
decoder requires the remainder to be an RLP list: a list with an item
count other than 10 yields the incorrect-list-length error, while a
byte-string remainder yields an expected-to-be-list error; the per-entry
decoder rejects a list entry that is not exactly 2 items with the
"unknown access list lenght" error and a non-list entry with an
expected-to-be-list error, so decode succeeds only when every access-list
entry is a 2-item [address, storageKeys] list. -/
theorem C9_access_list_decode :
    ∀ (keccak : List Nat → Nat) (td : List Nat),
      (∀ items, rlpParse (td.drop 1) = .ok (.list items) → items.length ≠ 10 →
          AccessListTx.decode keccak td = .err .rlpIncorrectListLen)
      ∧ (∀ s, rlpParse (td.drop 1) = .ok (.str s) →
          AccessListTx.decode keccak td = .err .rlpExpectedToBeList)
      ∧ (∀ l, l.length ≠ 2 →
          decodeAccessEntry (.list l) = .err (.custom "Unknown access list lenght"))
      ∧ (∀ s, decodeAccessEntry (.str s) = .err .rlpExpectedToBeList)
      ∧ (∀ t items i6, AccessListTx.decode keccak td = .ok t →
          rlpParse (td.drop 1) = .ok (.list items) → itemAt items 6 = .ok i6 →
          ∃ entries, i6 = RlpItem.list entries
            ∧ ∀ e ∈ entries, ∃ l, e = RlpItem.list l ∧ l.length = 2) := by
  intro keccak td
  refine ⟨?_, ?_, ?_, ?_, ?_⟩
  · intro items hp h10
    unfold AccessListTx.decode
    simp only [hp]
    rw [if_pos h10]
  · intro s hp
    unfold AccessListTx.decode
    simp only [hp]
  · intro l h2
    simp only [decodeAccessEntry]
    rw [if_pos h2]
  · intro s
    rfl
  · intro t items i6 hok hp hat
    unfold AccessListTx.decode at hok
    simp only [hp] at hok
    by_cases h10 : items.length = 10
    case neg =>
      rw [if_pos (by omega)] at hok
      exact DResult.noConfusion hok
    case pos =>
    rw [if_neg (by omega)] at hok
    rw [DResult.bind_eq_ok] at hok
    obtain ⟨tx, _, hok⟩ := hok
    rw [DResult.bind_eq_ok] at hok
    obtain ⟨i6b, hat2, hok⟩ := hok
    rw [DResult.bind_eq_ok] at hok
    obtain ⟨accl, haccl, _⟩ := hok
    rw [hat] at hat2
    simp only [DResult.ok.injEq] at hat2
    subst hat2
    cases i6 with
    | str s => exact absurd haccl (by simp [decodeAccessListItem])
    | list entries =>
      exact ⟨entries, rfl, decodeAccessEntries_shape entries accl haccl⟩

/-- C9 witness: a 0-item list remainder yields the incorrect-list-length
error, a 0-item access entry yields the custom error, and a byte-string
access entry yields expected-to-be-list. -/
theorem C9_witness :
    AccessListTx.decode wK [3, 0xc0] = .err .rlpIncorrectListLen
    ∧ decodeAccessEntry (.list []) = .err (.custom "Unknown access list lenght")
    ∧ decodeAccessEntry (.str [1]) = .err .rlpExpectedToBeList :=
  ⟨(C9_access_list_decode wK [3, 0xc0]).1 [] rfl (by decide),
   (C9_access_list_decode wK []).2.2.1 [] (by decide),
   (C9_access_list_decode wK []).2.2.2.1 [1]⟩

/-- C10. When the outermost RLP item of the input is a byte string with an
empty payload (e.g. the single byte 0x80), TypedTransaction::decode passes
the null check and then indexes the first byte of the empty payload, an
out-of-bounds access (panic) rather than a returned decode error: decode
is not total over byte-string inputs. -/
theorem C10_decode_panics_on_empty_payload :
    ∀ (keccak : List Nat → Nat) (bytes : List Nat),
      (rlpParse bytes = .ok (.str []) → TypedTransaction.decode keccak bytes = .panic)
      ∧ TypedTransaction.decode keccak [0x80] = .panic := by
  intro keccak bytes
  constructor
  · intro hp
    have hne : bytes ≠ [] := by
      rintro rfl
      rw [rlpParse_nil] at hp
      exact DResult.noConfusion hp
    unfold TypedTransaction.decode
    rw [if_neg (by simpa [List.isEmpty_iff] using hne)]
    simp only [hp]
  · rfl

/-- C10 witness: the single byte 0x80 parses as the empty byte string and
decode panics on it. -/
theorem C10_witness :
    rlpParse [0x80] = .ok (.str []) ∧ TypedTransaction.decode wK [0x80] = .panic :=
  ⟨rfl, (C10_decode_panics_on_empty_payload wK [0x80]).1 rfl⟩
